import Mathlib

/-!
Verification of the two one-time migration scripts of rhwb-pulse
(cloud-sql/migrate-qual-scores.py and cloud-sql/migrate-veer-feedback.py):
the paginated fetcher, the identifier mapper, the record normalizers,
the batched upserter and the final verification exit.

The scripts are shallowly embedded: the Supabase source is a list of rows,
the target database is a list of rows with a composite key, and the
side-effecting loops become pure folds producing the same data.
-/

namespace RhwbPulse

/-! ### Paginated fetcher (fetch_all_paginated, identical in both scripts)

The source table is modelled as the list `src` of its rows in order; a
range request `range(offset, offset + page_size - 1)` returns
`(src.drop offset).take page_size`.  The while-loop accumulates pages and
counts requests; it stops at the first page strictly shorter than
`page_size`. -/

def pageSize : Nat := 1000

def fetchLoop (src : List α) (offset : Nat) : List α × Nat :=
  if ((src.drop offset).take pageSize).length < pageSize then
    ((src.drop offset).take pageSize, 1)
  else
    let rest := fetchLoop src (offset + pageSize)
    ((src.drop offset).take pageSize ++ rest.1, rest.2 + 1)
termination_by src.length - offset
decreasing_by
  simp only [List.length_take, List.length_drop, pageSize] at *
  omega

def fetch_all_paginated (src : List α) : List α × Nat :=
  fetchLoop src 0

theorem fetchLoop_fst (src : List α) (offset : Nat) :
    (fetchLoop src offset).1 = src.drop offset := by
  unfold fetchLoop
  split
  · rename_i h
    simp only [List.length_take, List.length_drop] at h
    exact List.take_of_length_le (by simp; omega)
  · rename_i h
    simp only
    rw [fetchLoop_fst src (offset + pageSize)]
    rw [← List.drop_drop]
    exact List.take_append_drop pageSize (src.drop offset)
termination_by src.length - offset
decreasing_by
  simp only [List.length_take, List.length_drop, pageSize] at *
  omega

theorem fetchLoop_snd (src : List α) (offset : Nat) :
    (fetchLoop src offset).2 = (src.length - offset) / pageSize + 1 := by
  unfold fetchLoop
  split
  · rename_i h
    simp only [List.length_take, List.length_drop] at h
    have : (src.length - offset) / pageSize = 0 := by
      apply Nat.div_eq_of_lt
      omega
    simp [this]
  · rename_i h
    simp only [List.length_take, List.length_drop] at h
    simp only
    rw [fetchLoop_snd src (offset + pageSize)]
    simp only [pageSize] at h ⊢
    omega
termination_by src.length - offset
decreasing_by
  simp only [List.length_take, List.length_drop, pageSize] at *
  omega

/-- C1: fetch_all_paginated returns all rows of the source in order; it
issues `length / 1000 + 1` requests (advancing the offset by the page size
and stopping at the first page shorter than 1000); a 1500-row source yields
its 1500 rows in exactly 2 fetch calls; a source whose row count is an
exact multiple `1000 * k` of the page size takes `k + 1` requests, the
extra final request returning zero rows. -/
theorem fetch_all_paginated_spec (src : List α) :
    (fetch_all_paginated src).1 = src ∧
    (fetch_all_paginated src).2 = src.length / pageSize + 1 ∧
    (src.length = 1500 → (fetch_all_paginated src).2 = 2) ∧
    (∀ k : Nat, src.length = pageSize * k →
      (fetch_all_paginated src).2 = k + 1 ∧
      (src.drop (pageSize * k)).take pageSize = []) := by
  refine ⟨?_, ?_, ?_, ?_⟩
  · rw [fetch_all_paginated, fetchLoop_fst, List.drop_zero]
  · rw [fetch_all_paginated, fetchLoop_snd, Nat.sub_zero]
  · intro h
    rw [fetch_all_paginated, fetchLoop_snd, Nat.sub_zero, h]
    rfl
  · intro k hk
    constructor
    · rw [fetch_all_paginated, fetchLoop_snd, Nat.sub_zero, hk]
      simp only [pageSize]
      omega
    · rw [List.drop_eq_nil_of_le, List.take_nil]
      omega

/-- Witness for C1 at a concrete 1500-row source. -/
theorem fetch_all_paginated_spec_witness :
    (fetch_all_paginated (List.replicate 1500 0)).1 = List.replicate 1500 0 ∧
    (fetch_all_paginated (List.replicate 1500 0)).2 = 2 := by
  refine ⟨(fetch_all_paginated_spec (List.replicate 1500 0)).1, ?_⟩
  exact (fetch_all_paginated_spec (List.replicate 1500 0)).2.2.1
    (List.length_replicate 1500 0)

/-! ### Batched upserter (upsert_to_cloud_sql, both scripts)

The target table is a list of rows, each with a composite key `K`, the
value columns `V` overwritten by the DO UPDATE clause, the columns `C`
that are inserted but never touched on conflict (the created_at of veer_feedback;
empty for qual_scores) and the server-stamped updated_at.
A multi-row INSERT .. ON CONFLICT applies its value rows in order: on a
key collision the existing row keeps its key and `C` columns and receives
the new value columns with updated_at = NOW(); otherwise the row is
appended with updated_at taking the column default `d`. -/

structure DbRow (K V C : Type) where
  key : K
  vals : V
  created : C
  updated_at : Option Nat
deriving DecidableEq

structure Record (K V C : Type) where
  key : K
  vals : V
  created : C
deriving DecidableEq

variable {K V C : Type} [DecidableEq K]

def upsertOne (now : Nat) (d : Option Nat) (db : List (DbRow K V C))
    (r : Record K V C) : List (DbRow K V C) :=
  if db.any (fun row => decide (row.key = r.key)) then
    db.map (fun row => if row.key = r.key then
      { row with vals := r.vals, updated_at := some now } else row)
  else
    db ++ [⟨r.key, r.vals, r.created, d⟩]

def upsert_apply (now : Nat) (d : Option Nat) (db : List (DbRow K V C))
    (records : List (Record K V C)) : List (DbRow K V C) :=
  records.foldl (upsertOne now d) db

def findRow (db : List (DbRow K V C)) (k : K) : Option (DbRow K V C) :=
  db.find? (fun row => decide (row.key = k))

def dbKeys (db : List (DbRow K V C)) : List K :=
  db.map DbRow.key

theorem findRow_key {db : List (DbRow K V C)} {k : K} {row : DbRow K V C}
    (h : findRow db k = some row) : row.key = k := by
  have := List.find?_some h
  simpa using this

theorem findRow_isSome_iff {db : List (DbRow K V C)} {k : K} :
    (findRow db k).isSome = true ↔ k ∈ dbKeys db := by
  rw [findRow, List.find?_isSome, dbKeys]
  constructor
  · rintro ⟨row, hmem, hrow⟩
    simp only [decide_eq_true_eq] at hrow
    exact hrow ▸ List.mem_map_of_mem DbRow.key hmem
  · intro hk
    rcases List.mem_map.mp hk with ⟨row, hmem, hkey⟩
    exact ⟨row, hmem, by simp [hkey]⟩

theorem upsertOne_any_iff (db : List (DbRow K V C)) (r : Record K V C) :
    (db.any (fun row => decide (row.key = r.key)) = true) ↔
      (findRow db r.key).isSome = true := by
  rw [List.any_eq_true, findRow, List.find?_isSome]

theorem find?_map_keyfix (db : List (DbRow K V C))
    (f : DbRow K V C → DbRow K V C) (hf : ∀ row, (f row).key = row.key)
    (k : K) :
    (db.map f).find? (fun row => decide (row.key = k)) =
      (db.find? (fun row => decide (row.key = k))).map f := by
  rw [List.find?_map]
  have hp : ((fun row : DbRow K V C => decide (row.key = k)) ∘ f) =
      (fun row : DbRow K V C => decide (row.key = k)) := by
    funext row
    simp [Function.comp, hf row]
  rw [hp]

theorem findRow_upsertOne_self (now : Nat) (d : Option Nat)
    (db : List (DbRow K V C)) (r : Record K V C) :
    findRow (upsertOne now d db r) r.key =
      some (match findRow db r.key with
        | some old => { old with vals := r.vals, updated_at := some now }
        | none => ⟨r.key, r.vals, r.created, d⟩) := by
  unfold upsertOne
  split
  · rename_i hany
    rw [upsertOne_any_iff db r] at hany
    rw [findRow, find?_map_keyfix db _
      (fun row => by by_cases hk : row.key = r.key <;> simp [hk]) r.key]
    rcases hOld : findRow db r.key with _ | old
    · rw [hOld] at hany; simp at hany
    · have hkey := findRow_key hOld
      rw [findRow] at hOld
      rw [hOld]
      simp [hkey]
  · rename_i hany
    rw [upsertOne_any_iff db r] at hany
    have hnone : findRow db r.key = none := by
      cases hF : findRow db r.key
      · rfl
      · rw [hF] at hany; simp at hany
    rw [hnone]
    rw [findRow, List.find?_append]
    rw [findRow] at hnone
    rw [hnone]
    simp [List.find?]

theorem findRow_upsertOne_ne (now : Nat) (d : Option Nat)
    (db : List (DbRow K V C)) (r : Record K V C) (k : K) (hne : k ≠ r.key) :
    findRow (upsertOne now d db r) k = findRow db k := by
  unfold upsertOne
  split
  · rw [findRow, find?_map_keyfix db _
      (fun row => by by_cases hk : row.key = r.key <;> simp [hk]) k]
    rcases hOld : findRow db k with _ | old
    · rw [findRow] at hOld; rw [hOld]; rfl
    · have hkey := findRow_key hOld
      rw [findRow] at hOld
      rw [hOld]
      simp [hkey, hne]
  · rw [findRow, List.find?_append]
    have hnew : List.find? (fun row : DbRow K V C => decide (row.key = k))
        [⟨r.key, r.vals, r.created, d⟩] = none := by
      simp [List.find?, Ne.symm hne]
    rw [hnew, findRow, Option.or_none]

theorem dbKeys_upsertOne (now : Nat) (d : Option Nat)
    (db : List (DbRow K V C)) (r : Record K V C) :
    dbKeys (upsertOne now d db r) =
      if r.key ∈ dbKeys db then dbKeys db else dbKeys db ++ [r.key] := by
  unfold upsertOne
  split
  · rename_i hany
    rw [upsertOne_any_iff db r, findRow_isSome_iff] at hany
    rw [if_pos hany]
    unfold dbKeys
    rw [List.map_map]
    congr 1
    funext row
    by_cases hk : row.key = r.key <;> simp [Function.comp, hk]
  · rename_i hany
    rw [upsertOne_any_iff db r] at hany
    have hmem : r.key ∉ dbKeys db := by
      intro hmem
      exact hany (findRow_isSome_iff.mpr hmem)
    rw [if_neg hmem]
    simp [dbKeys]

theorem nodup_dbKeys_upsertOne {now : Nat} {d : Option Nat}
    {db : List (DbRow K V C)} {r : Record K V C}
    (h : (dbKeys db).Nodup) : (dbKeys (upsertOne now d db r)).Nodup := by
  rw [dbKeys_upsertOne]
  split
  · exact h
  · rename_i hmem
    simp [List.nodup_append, h, hmem]

theorem mem_dbKeys_upsertOne (now : Nat) (d : Option Nat)
    (db : List (DbRow K V C)) (r : Record K V C) (k : K) :
    k ∈ dbKeys (upsertOne now d db r) ↔ k ∈ dbKeys db ∨ k = r.key := by
  rw [dbKeys_upsertOne]
  split
  · rename_i hmem
    constructor
    · exact Or.inl
    · rintro (h | h)
      · exact h
      · exact h ▸ hmem
  · simp

theorem nodup_dbKeys_upsert_apply {now : Nat} {d : Option Nat}
    (recs : List (Record K V C)) :
    ∀ {db : List (DbRow K V C)}, (dbKeys db).Nodup →
      (dbKeys (upsert_apply now d db recs)).Nodup := by
  induction recs with
  | nil => intro db h; exact h
  | cons r rs ih =>
    intro db h
    exact ih (nodup_dbKeys_upsertOne h)

theorem mem_dbKeys_upsert_apply (now : Nat) (d : Option Nat)
    (recs : List (Record K V C)) :
    ∀ (db : List (DbRow K V C)) (k : K),
      k ∈ dbKeys (upsert_apply now d db recs) ↔
        k ∈ dbKeys db ∨ k ∈ recs.map Record.key := by
  induction recs with
  | nil => intro db k; simp [upsert_apply]
  | cons r rs ih =>
    intro db k
    rw [show upsert_apply now d db (r :: rs) =
      upsert_apply now d (upsertOne now d db r) rs from rfl]
    rw [ih (upsertOne now d db r) k, mem_dbKeys_upsertOne]
    simp only [List.map_cons, List.mem_cons]
    tauto

/-- The row a key holds after applying a record list in order: the value
columns of the last record hitting the key, the insert-only columns of the
pre-existing row (or of the first hitting record), and updated_at stamped
with NOW whenever the key was updated at least once (pre-existing, or hit
twice); a single fresh insert keeps the column default. -/
def lastHitRow (now : Nat) (d : Option Nat) (base : Option (DbRow K V C))
    (k : K) : List (Record K V C) → Option (DbRow K V C)
  | [] => base
  | first :: rest =>
      some ⟨k, (rest.getLastD first).vals,
        (match base with | some old => old.created | none => first.created),
        if base.isSome = true ∨ rest.isEmpty = false then some now else d⟩

theorem findRow_upsert_apply (now : Nat) (d : Option Nat)
    (recs : List (Record K V C)) : ∀ (db : List (DbRow K V C)) (k : K),
    findRow (upsert_apply now d db recs) k =
      lastHitRow now d (findRow db k) k
        (recs.filter (fun r => decide (r.key = k))) := by
  induction recs with
  | nil => intro db k; rfl
  | cons r rs ih =>
    intro db k
    rw [show upsert_apply now d db (r :: rs) =
      upsert_apply now d (upsertOne now d db r) rs from rfl]
    rw [ih (upsertOne now d db r) k]
    by_cases hk : k = r.key
    · subst hk
      rw [findRow_upsertOne_self now d db r]
      rw [List.filter_cons_of_pos (by simp)]
      cases hfil : rs.filter (fun x => decide (x.key = r.key)) with
      | nil =>
        cases hF : findRow db r.key with
        | none => simp [lastHitRow, hF]
        | some old =>
          have hkey := findRow_key hF
          simp [lastHitRow, hF, hkey]
      | cons f rest2 =>
        cases hF : findRow db r.key with
        | none =>
          simp [lastHitRow, hF, List.getLast?_cons, List.getLastD_eq_getLast?]
        | some old =>
          have hkey := findRow_key hF
          simp [lastHitRow, hF, hkey, List.getLast?_cons,
            List.getLastD_eq_getLast?]
    · rw [findRow_upsertOne_ne now d db r k hk]
      rw [List.filter_cons_of_neg (by simp [Ne.symm hk])]

def valsAt (db : List (DbRow K V C)) (k : K) : Option V :=
  (findRow db k).map DbRow.vals

theorem filter_key_ne_nil {recs : List (Record K V C)} {k : K}
    (hk : k ∈ recs.map Record.key) :
    recs.filter (fun r => decide (r.key = k)) ≠ [] := by
  rcases List.mem_map.mp hk with ⟨rec, hmem, hkey⟩
  intro hnil
  have := List.filter_eq_nil_iff.mp hnil rec hmem
  simp [hkey] at this

/-- C2 (amended): on a composite-key collision the conflict-resolution
clause keeps the key columns and the insert-only columns (the
created_at of veer_feedback) of the existing row, overwrites the value columns listed in
the DO UPDATE SET clause, and stamps updated_at with NOW; rows whose key
differs, and rows whose keys do not appear in the record set at all, are
unchanged. -/
theorem upsert_conflict_update_spec (now : Nat) (d : Option Nat)
    (db : List (DbRow K V C)) (r : Record K V C) :
    (∀ old, findRow db r.key = some old →
        findRow (upsertOne now d db r) r.key =
          some ⟨old.key, r.vals, old.created, some now⟩) ∧
    (∀ k, k ≠ r.key → findRow (upsertOne now d db r) k = findRow db k) ∧
    (∀ (recs : List (Record K V C)) (k : K), k ∉ recs.map Record.key →
        findRow (upsert_apply now d db recs) k = findRow db k) := by
  refine ⟨?_, ?_, ?_⟩
  · intro old hOld
    rw [findRow_upsertOne_self now d db r, hOld]
  · intro k hne
    exact findRow_upsertOne_ne now d db r k hne
  · intro recs k hk
    rw [findRow_upsert_apply now d recs db k]
    have hfil : recs.filter (fun q => decide (q.key = k)) = [] := by
      rw [List.filter_eq_nil_iff]
      intro q hq
      simp only [decide_eq_true_eq]
      intro hkey
      exact hk (hkey ▸ List.mem_map_of_mem Record.key hq)
    rw [hfil]
    rfl

/-- Witness for C2 (amended) at a concrete database and record. -/
theorem upsert_conflict_update_spec_witness :
    findRow (upsertOne 3 none [(⟨1, 10, 0, none⟩ : DbRow Nat Nat Nat)]
        ⟨1, 20, 7⟩) 1 = some ⟨1, 20, 0, some 3⟩ ∧
    findRow (upsertOne 3 none [(⟨1, 10, 0, none⟩ : DbRow Nat Nat Nat)]
        ⟨1, 20, 7⟩) 2 = findRow [(⟨1, 10, 0, none⟩ : DbRow Nat Nat Nat)] 2 ∧
    findRow (upsert_apply 3 none [(⟨1, 10, 0, none⟩ : DbRow Nat Nat Nat)]
        [⟨1, 20, 7⟩]) 2 = findRow [(⟨1, 10, 0, none⟩ : DbRow Nat Nat Nat)] 2 := by
  have h := upsert_conflict_update_spec 3 none
    [(⟨1, 10, 0, none⟩ : DbRow Nat Nat Nat)] ⟨1, 20, 7⟩
  exact ⟨h.1 ⟨1, 10, 0, none⟩ (by decide), h.2.1 2 (by decide),
    h.2.2 [⟨1, 20, 7⟩] 2 (by decide)⟩

/-- C2 counterexample: the veer_feedback DO UPDATE SET clause does not list
created_at, so on a key collision the existing row keeps its created_at
instead of receiving the one of the excluded record — the claim that all
non-key columns are overwritten fails.  Keys are (message_id, runner_id),
values are the feedback column, created is created_at. -/
theorem veer_created_at_not_overwritten :
    findRow (upsertOne 5 none
        [(⟨("m1", "r1"), some "good", some "t0", none⟩ :
          DbRow (String × String) (Option String) (Option String))]
        ⟨("m1", "r1"), some "bad", some "t1"⟩) ("m1", "r1") =
      some ⟨("m1", "r1"), some "bad", some "t0", some 5⟩ ∧
    (some "t0" : Option String) ≠ some "t1" := by
  constructor
  · decide
  · decide

/-- C3: running the upsert twice with the same record set and the same
NOW gives, for every composite key, the same value columns as one run;
key sets agree; no duplicate key rows are created; every key of the
record set ends with updated_at = NOW and the value columns of the last
record for that key; keys outside the record set keep their row; and if
the insert default of updated_at is NOW as well, the final row of every
key is identical across the two runs. -/
theorem upsert_apply_idempotent (now : Nat) (d : Option Nat)
    (db : List (DbRow K V C)) (recs : List (Record K V C)) :
    (∀ k, valsAt (upsert_apply now d (upsert_apply now d db recs) recs) k =
        valsAt (upsert_apply now d db recs) k) ∧
    (∀ k, k ∈ dbKeys (upsert_apply now d (upsert_apply now d db recs) recs) ↔
        k ∈ dbKeys (upsert_apply now d db recs)) ∧
    ((dbKeys db).Nodup →
      (dbKeys (upsert_apply now d (upsert_apply now d db recs) recs)).Nodup) ∧
    (d = some now → ∀ k,
      findRow (upsert_apply now d (upsert_apply now d db recs) recs) k =
        findRow (upsert_apply now d db recs) k) ∧
    (∀ k ∈ recs.map Record.key, ∃ row,
      findRow (upsert_apply now d (upsert_apply now d db recs) recs) k =
        some row ∧
      row.updated_at = some now ∧
      some row.vals = valsAt (upsert_apply now d db recs) k) := by
  refine ⟨?_, ?_, ?_, ?_, ?_⟩
  · intro k
    rw [valsAt, valsAt,
      findRow_upsert_apply now d recs (upsert_apply now d db recs) k]
    cases hfil : recs.filter (fun q => decide (q.key = k)) with
    | nil => simp [lastHitRow]
    | cons f rest =>
      rw [findRow_upsert_apply now d recs db k, hfil]
      simp [lastHitRow]
  · intro k
    rw [mem_dbKeys_upsert_apply now d recs (upsert_apply now d db recs) k,
      mem_dbKeys_upsert_apply now d recs db k]
    tauto
  · intro h
    exact nodup_dbKeys_upsert_apply recs (nodup_dbKeys_upsert_apply recs h)
  · intro hd k
    subst hd
    rw [findRow_upsert_apply now (some now) recs
      (upsert_apply now (some now) db recs) k]
    cases hfil : recs.filter (fun q => decide (q.key = k)) with
    | nil => simp [lastHitRow]
    | cons f rest =>
      rw [findRow_upsert_apply now (some now) recs db k, hfil]
      simp [lastHitRow]
  · intro k hk
    rw [findRow_upsert_apply now d recs (upsert_apply now d db recs) k]
    cases hfil : recs.filter (fun q => decide (q.key = k)) with
    | nil => exact absurd hfil (filter_key_ne_nil hk)
    | cons f rest =>
      rw [valsAt, findRow_upsert_apply now d recs db k, hfil]
      simp [lastHitRow]

/-- Witness for C3 at a concrete database and record set. -/
theorem upsert_apply_idempotent_witness :
    valsAt (upsert_apply 4 none
        (upsert_apply 4 none [(⟨1, 10, 0, none⟩ : DbRow Nat Nat Nat)]
          [⟨1, 20, 7⟩]) [⟨1, 20, 7⟩]) 1 =
      valsAt (upsert_apply 4 none [(⟨1, 10, 0, none⟩ : DbRow Nat Nat Nat)]
        [⟨1, 20, 7⟩]) 1 ∧
    (dbKeys (upsert_apply 4 none
        (upsert_apply 4 none [(⟨1, 10, 0, none⟩ : DbRow Nat Nat Nat)]
          [⟨1, 20, 7⟩]) [⟨1, 20, 7⟩])).Nodup ∧
    findRow (upsert_apply 4 (some 4)
        (upsert_apply 4 (some 4) [(⟨1, 10, 0, none⟩ : DbRow Nat Nat Nat)]
          [⟨1, 20, 7⟩]) [⟨1, 20, 7⟩]) 1 =
      findRow (upsert_apply 4 (some 4) [(⟨1, 10, 0, none⟩ : DbRow Nat Nat Nat)]
        [⟨1, 20, 7⟩]) 1 ∧
    (∃ row, findRow (upsert_apply 4 none
        (upsert_apply 4 none [(⟨1, 10, 0, none⟩ : DbRow Nat Nat Nat)]
          [⟨1, 20, 7⟩]) [⟨1, 20, 7⟩]) 1 = some row ∧
      row.updated_at = some 4 ∧
      some row.vals = valsAt (upsert_apply 4 none
        [(⟨1, 10, 0, none⟩ : DbRow Nat Nat Nat)] [⟨1, 20, 7⟩]) 1) := by
  have h := upsert_apply_idempotent 4 none
    [(⟨1, 10, 0, none⟩ : DbRow Nat Nat Nat)] [⟨1, 20, 7⟩]
  have h2 := upsert_apply_idempotent 4 (some 4)
    [(⟨1, 10, 0, none⟩ : DbRow Nat Nat Nat)] [⟨1, 20, 7⟩]
  exact ⟨h.1 1, h.2.2.1 (by decide), h2.2.2.2.1 rfl 1,
    h.2.2.2.2 1 (by decide)⟩

/-! ### Batching, the returned total and the commit

upsert_to_cloud_sql returns 0 at once on an empty record list; otherwise
it slices the records into batches of BATCH_SIZE, issues one statement per
batch adding the batch length to the running total, and commits once after
the loop.  `chunks` is the slicing `records[i : i + BATCH_SIZE]`;
`upsert_to_cloud_sql_total` is the returned total; the operation trace and
the failure behaviour of execute_values are modelled below. -/

def BATCH_SIZE : Nat := 500

def chunks (l : List α) : List (List α) :=
  if l.isEmpty then []
  else l.take BATCH_SIZE :: chunks (l.drop BATCH_SIZE)
termination_by l.length
decreasing_by
  rename_i h
  simp only [List.length_drop, BATCH_SIZE]
  have hne : l ≠ [] := by
    intro he
    exact h (by simp [he])
  have : 0 < l.length := List.length_pos.mpr hne
  omega

theorem chunks_flatten (l : List α) : (chunks l).flatten = l := by
  rw [chunks]
  split
  · rename_i h
    simp only [List.isEmpty_iff] at h
    simp [h]
  · rename_i h
    simp only [List.flatten_cons]
    rw [chunks_flatten (l.drop BATCH_SIZE)]
    exact List.take_append_drop _ l
termination_by l.length
decreasing_by
  rename_i h
  simp only [List.length_drop, BATCH_SIZE]
  have hne : l ≠ [] := by
    intro he
    exact h (by simp [he])
  have : 0 < l.length := List.length_pos.mpr hne
  omega

def upsert_to_cloud_sql_total (records : List α) : Nat :=
  if records.isEmpty then 0
  else (chunks records).foldl (fun total b => total + b.length) 0

def verify_exit (prepared total : Nat) : Nat :=
  if total = prepared then 0 else 1

theorem foldl_add_length (L : List (List α)) :
    ∀ n : Nat, L.foldl (fun t b => t + b.length) n = n + (L.map List.length).sum := by
  induction L with
  | nil => intro n; simp
  | cons b bs ih =>
    intro n
    simp only [List.foldl_cons, List.map_cons, List.sum_cons]
    rw [ih (n + b.length)]
    omega

/-- C9: the fixed-size batches partition the record list, every batch
contributes its length to the returned total, so on an exception-free run
upsert_to_cloud_sql returns exactly the length of its input (0 for the
empty list) and the final count-mismatch check can never fire. -/
theorem upsert_total_spec (records : List α) :
    upsert_to_cloud_sql_total records = records.length ∧
    (chunks records).flatten = records ∧
    verify_exit records.length (upsert_to_cloud_sql_total records) = 0 := by
  have htot : upsert_to_cloud_sql_total records = records.length := by
    rw [upsert_to_cloud_sql_total]
    split
    · rename_i h
      simp only [List.isEmpty_iff] at h
      simp [h]
    · rw [foldl_add_length, Nat.zero_add, ← List.length_flatten,
        chunks_flatten]
  refine ⟨htot, chunks_flatten records, ?_⟩
  rw [htot, verify_exit, if_pos rfl]

/-! The operation trace of one upsert_to_cloud_sql call: each successful
execute_values is a batch op, the single conn.commit at the end is a
commit op.  `fails` tells which batch statements raise; the loop stops at
the first raising statement and the commit line is never reached. -/

inductive DbOp (K V C : Type) where
  | batch : List (Record K V C) → DbOp K V C
  | commit : DbOp K V C

def isCommit : DbOp K V C → Bool
  | DbOp.commit => true
  | DbOp.batch _ => false

def commitCount (ops : List (DbOp K V C)) : Nat :=
  (ops.filter isCommit).length

def runBatches (fails : List (Record K V C) → Bool) :
    List (List (Record K V C)) → List (DbOp K V C) × Bool
  | [] => ([], true)
  | b :: bs =>
      if fails b then ([], false)
      else
        let rest := runBatches fails bs
        (DbOp.batch b :: rest.1, rest.2)

def upsert_ops (fails : List (Record K V C) → Bool)
    (records : List (Record K V C)) : List (DbOp K V C) × Bool :=
  if records.isEmpty then ([], true)
  else if (runBatches fails (chunks records)).2 then
    ((runBatches fails (chunks records)).1 ++ [DbOp.commit], true)
  else ((runBatches fails (chunks records)).1, false)

/-- Connection state: committed rows and the pending uncommitted
transaction state.  A batch statement updates only the pending state; the
commit publishes it.  The visible database on abort is the committed
component. -/
def applyOps (now : Nat) (d : Option Nat)
    (st : List (DbRow K V C) × List (DbRow K V C)) :
    List (DbOp K V C) → List (DbRow K V C) × List (DbRow K V C)
  | [] => st
  | DbOp.batch b :: rest => applyOps now d (st.1, upsert_apply now d st.2 b) rest
  | DbOp.commit :: rest => applyOps now d (st.2, st.2) rest

theorem runBatches_ok (fails : List (Record K V C) → Bool) :
    ∀ bs : List (List (Record K V C)),
      (∀ b ∈ bs, fails b = false) →
      runBatches fails bs = (bs.map DbOp.batch, true) := by
  intro bs
  induction bs with
  | nil => intro _; rfl
  | cons b rest ih =>
    intro h
    rw [runBatches]
    rw [if_neg (by rw [h b (List.mem_cons_self b rest)]; simp)]
    rw [ih (fun q hq => h q (List.mem_cons_of_mem b hq))]
    rfl

theorem runBatches_no_commit (fails : List (Record K V C) → Bool) :
    ∀ bs : List (List (Record K V C)),
      ∀ op ∈ (runBatches fails bs).1, isCommit op = false := by
  intro bs
  induction bs with
  | nil => intro op hop; simp [runBatches] at hop
  | cons b rest ih =>
    intro op hop
    rw [runBatches] at hop
    split at hop
    · simp at hop
    · simp only [List.mem_cons] at hop
      rcases hop with hop | hop
      · rw [hop]; rfl
      · exact ih op hop

theorem runBatches_fails (fails : List (Record K V C) → Bool) :
    ∀ bs : List (List (Record K V C)),
      (∃ b ∈ bs, fails b = true) →
      (runBatches fails bs).2 = false := by
  intro bs
  induction bs with
  | nil => rintro ⟨b, hb, _⟩; simp at hb
  | cons b rest ih =>
    rintro ⟨q, hq, hfq⟩
    rw [runBatches]
    rcases List.mem_cons.mp hq with hq | hq
    · rw [if_pos (hq ▸ hfq)]
    · split
      · rfl
      · simp only
        exact ih ⟨q, hq, hfq⟩

theorem commitCount_batches (bs : List (List (Record K V C))) :
    commitCount (bs.map DbOp.batch) = 0 := by
  rw [commitCount]
  induction bs with
  | nil => rfl
  | cons b rest ih => simpa [isCommit] using ih

theorem applyOps_no_commit (now : Nat) (d : Option Nat) :
    ∀ (ops : List (DbOp K V C)), (∀ op ∈ ops, isCommit op = false) →
      ∀ st : List (DbRow K V C) × List (DbRow K V C),
        (applyOps now d st ops).1 = st.1 := by
  intro ops
  induction ops with
  | nil => intro _ st; rfl
  | cons op rest ih =>
    intro h st
    cases op with
    | batch b =>
      rw [applyOps]
      exact ih (fun q hq => h q (List.mem_cons_of_mem _ hq)) _
    | commit =>
      have := h DbOp.commit (List.mem_cons_self _ _)
      simp [isCommit] at this

/-- C8 (amended): on a nonempty record list, when no batch statement
raises, the trace of one upsert_to_cloud_sql call is the batch statements
in order followed by exactly one commit — the commit happens once after
all batches, never per batch; when some batch raises, the loop stops, the
commit line is never reached and the committed database is left unchanged.
On an empty record list the function returns 0 early and no commit is
issued at all. -/
theorem upsert_commit_once (fails : List (Record K V C) → Bool)
    (records : List (Record K V C)) (hne : records ≠ []) :
    ((∀ b ∈ chunks records, fails b = false) →
      (upsert_ops fails records).1 =
        (chunks records).map DbOp.batch ++ [DbOp.commit] ∧
      commitCount (upsert_ops fails records).1 = 1) ∧
    ((∃ b ∈ chunks records, fails b = true) →
      commitCount (upsert_ops fails records).1 = 0 ∧
      ∀ (now : Nat) (d : Option Nat) (db0 : List (DbRow K V C)),
        (applyOps now d (db0, db0) (upsert_ops fails records).1).1 = db0) := by
  have hemp : ¬ records.isEmpty = true := by
    intro he
    exact hne (List.isEmpty_iff.mp he)
  constructor
  · intro h
    rw [upsert_ops, if_neg hemp, runBatches_ok fails (chunks records) h]
    refine ⟨rfl, ?_⟩
    show commitCount ((chunks records).map DbOp.batch ++ [DbOp.commit]) = 1
    rw [commitCount, List.filter_append]
    have h0 : ((chunks records).map DbOp.batch).filter isCommit = [] := by
      have := commitCount_batches (K := K) (V := V) (C := C) (chunks records)
      rw [commitCount] at this
      exact List.eq_nil_of_length_eq_zero this
    rw [h0]
    rfl
  · rintro ⟨b, hb, hfb⟩
    have h2 : (runBatches fails (chunks records)).2 = false :=
      runBatches_fails fails (chunks records) ⟨b, hb, hfb⟩
    rw [upsert_ops, if_neg hemp, if_neg (by rw [h2]; simp)]
    refine ⟨?_, ?_⟩
    · rw [commitCount]
      rw [List.filter_eq_nil_iff.mpr
        (fun op hop => by
          rw [runBatches_no_commit fails (chunks records) op hop]
          simp)]
      rfl
    · intro now d db0
      exact applyOps_no_commit now d _
        (runBatches_no_commit fails (chunks records)) _

theorem chunks_singleton (r : Record Nat Nat Nat) :
    chunks [r] = [[r]] := by
  rw [chunks]
  rw [if_neg (by simp)]
  rw [List.take_of_length_le (by simp [BATCH_SIZE]),
    List.drop_eq_nil_of_le (by simp [BATCH_SIZE])]
  rw [chunks]
  rfl

/-- Witness for C8 (amended) at a concrete one-record run, both without
and with a raising batch statement. -/
theorem upsert_commit_once_witness :
    (upsert_ops (fun _ => false) [(⟨1, 2, 3⟩ : Record Nat Nat Nat)]).1 =
      [DbOp.batch [⟨1, 2, 3⟩], DbOp.commit] ∧
    commitCount
      (upsert_ops (fun _ => false) [(⟨1, 2, 3⟩ : Record Nat Nat Nat)]).1 = 1 ∧
    commitCount
      (upsert_ops (fun _ => true) [(⟨1, 2, 3⟩ : Record Nat Nat Nat)]).1 = 0 ∧
    (applyOps 0 none ([(⟨9, 9, 9, none⟩ : DbRow Nat Nat Nat)], [⟨9, 9, 9, none⟩])
      (upsert_ops (fun _ => true) [(⟨1, 2, 3⟩ : Record Nat Nat Nat)]).1).1 =
      [(⟨9, 9, 9, none⟩ : DbRow Nat Nat Nat)] := by
  have h1 := upsert_commit_once (fun _ => false)
    [(⟨1, 2, 3⟩ : Record Nat Nat Nat)] (by simp)
  have h2 := upsert_commit_once (fun _ => true)
    [(⟨1, 2, 3⟩ : Record Nat Nat Nat)] (by simp)
  have ha := h1.1 (fun b _ => rfl)
  have hb := h2.2 ⟨[⟨1, 2, 3⟩], by rw [chunks_singleton]; exact List.mem_singleton.mpr rfl, rfl⟩
  refine ⟨?_, ha.2, hb.1, hb.2 0 none [⟨9, 9, 9, none⟩]⟩
  rw [ha.1, chunks_singleton]
  rfl

/-- C8 counterexample: with an empty record list upsert_to_cloud_sql
returns before creating a cursor, so the run issues no commit at all —
the commit is not issued exactly once on every run. -/
theorem upsert_empty_no_commit :
    (upsert_ops (fun _ => false) ([] : List (Record Nat Nat Nat))).1 = [] ∧
    commitCount
      (upsert_ops (fun _ => false) ([] : List (Record Nat Nat Nat))).1 ≠ 1 := by
  constructor
  · rfl
  · intro h
    simp [upsert_ops, commitCount] at h

/-! ### Source rows and the identifier mapper (migrate-qual-scores.py)

Python truthiness of an optional string column: None and the empty string
are falsy. -/

def truthy (o : Option String) : Bool :=
  match o with
  | none => false
  | some s => !(s == "")

structure ProfileRow where
  email_id : String
  runner_id : Option String
deriving DecidableEq

/-- The dict comprehension of fetch_runner_id_map: rows without a truthy
runner_id are skipped, later rows overwrite earlier bindings of the same
email. -/
def fetch_runner_id_map (rows : List ProfileRow) : String → Option String :=
  rows.foldl
    (fun m r =>
      match r.runner_id with
      | some rid =>
          if rid = "" then m
          else fun e => if e = r.email_id then some rid else m e
      | none => m)
    (fun _ => none)

theorem fetch_runner_id_map_append (rs : List ProfileRow) (r : ProfileRow)
    (e : String) :
    fetch_runner_id_map (rs ++ [r]) e =
      match r.runner_id with
      | some rid =>
          if rid = "" then fetch_runner_id_map rs e
          else if e = r.email_id then some rid else fetch_runner_id_map rs e
      | none => fetch_runner_id_map rs e := by
  simp only [fetch_runner_id_map, List.foldl_append, List.foldl_cons,
    List.foldl_nil]
  cases r.runner_id with
  | none => rfl
  | some rid =>
    by_cases h : rid = "" <;> simp [h]

/-- C5: the identifier map binds every email to the runner_id of the last
row with that email among the rows whose runner_id is truthy; rows with a
falsy (null or empty) runner_id contribute no entry. -/
theorem fetch_runner_id_map_spec (rows : List ProfileRow) (e : String) :
    fetch_runner_id_map rows e =
      ((rows.filter (fun r => truthy r.runner_id && (r.email_id == e))).getLast?).bind
        ProfileRow.runner_id := by
  induction rows using List.reverseRecOn with
  | nil => rfl
  | append_singleton rs r ih =>
    rw [fetch_runner_id_map_append rs r e, List.filter_append,
      List.filter_singleton]
    cases hrid : r.runner_id with
    | none =>
      have hpred : (truthy none && (r.email_id == e)) = false := by
        simp [truthy]
      rw [hpred]
      simp only [Bool.cond_false, List.append_nil]
      exact ih
    | some rid =>
      by_cases hempty : rid = ""
      · subst hempty
        have hpred : (truthy (some "") && (r.email_id == e)) = false := by
          simp [truthy]
        rw [hpred]
        simp only [Bool.cond_false, List.append_nil]
        show (if ("" : String) = "" then fetch_runner_id_map rs e
          else if e = r.email_id then some "" else fetch_runner_id_map rs e) =
          (List.filter (fun q => truthy q.runner_id && (q.email_id == e))
            rs).getLast?.bind ProfileRow.runner_id
        rw [if_pos rfl]
        exact ih
      · by_cases he : e = r.email_id
        · have hpred : (truthy (some rid) && (r.email_id == e)) = true := by
            simp [truthy, hempty, he.symm]
          rw [hpred]
          simp only [Bool.cond_true]
          show (if rid = "" then fetch_runner_id_map rs e
            else if e = r.email_id then some rid
            else fetch_runner_id_map rs e) =
            (List.filter (fun q => truthy q.runner_id && (q.email_id == e))
              rs ++ [r]).getLast?.bind ProfileRow.runner_id
          rw [if_neg hempty, if_pos he, List.getLast?_concat]
          simp [hrid]
        · have hpred : (truthy (some rid) && (r.email_id == e)) = false := by
            simp only [truthy, Bool.and_eq_false_imp, beq_eq_false_iff_ne]
            exact fun _ h => he h.symm
          rw [hpred]
          simp only [Bool.cond_false, List.append_nil]
          show (if rid = "" then fetch_runner_id_map rs e
            else if e = r.email_id then some rid
            else fetch_runner_id_map rs e) =
            (List.filter (fun q => truthy q.runner_id && (q.email_id == e))
              rs).getLast?.bind ProfileRow.runner_id
          rw [if_neg hempty, if_neg he]
          exact ih

/-! ### The legacy normalizer (fetch_legacy_quals) -/

structure LegacyRow where
  email_id : String
  season : String
  meso : String
  qual : Option String
deriving DecidableEq

/-- The digit characters of the season string, concatenated in order. -/
def seasonDigits (s : String) : String :=
  ⟨s.data.filter Char.isDigit⟩

/-- Python int() on a nonempty all-digit string. -/
def digitsToNat (s : String) : Nat :=
  s.data.foldl (fun n c => 10 * n + (c.toNat - 48)) 0

/-- Python str.strip(): remove leading and trailing whitespace. -/
def stripChars (s : String) : String :=
  ⟨(((s.data.dropWhile Char.isWhitespace).reverse.dropWhile
      Char.isWhitespace).reverse)⟩

def legacyKeep (r : LegacyRow) : Bool :=
  !(seasonDigits r.season == "") &&
    decide (digitsToNat (seasonDigits r.season) ≤ 13) &&
    truthy r.qual && !(stripChars (r.qual.getD "") == "")

def fetch_legacy_quals (rows : List LegacyRow) : List LegacyRow :=
  rows.filter legacyKeep

/-- C6: the legacy branch parses the season by concatenating exactly its
digit characters (Season 13 and S-13 both parse to 13), keeps a fetched
row exactly when the parsed season exists and is at most 13 and the
qualitative value is non-empty after trimming, and a row whose season
string has no digit characters is dropped (the keep test is simply
false, no error). -/
theorem fetch_legacy_quals_spec :
    seasonDigits "Season 13" = "13" ∧
    digitsToNat (seasonDigits "Season 13") = 13 ∧
    seasonDigits "S-13" = "13" ∧
    digitsToNat (seasonDigits "S-13") = 13 ∧
    (∀ (rows : List LegacyRow) (r : LegacyRow),
      r ∈ fetch_legacy_quals rows ↔ r ∈ rows ∧ legacyKeep r = true) ∧
    (∀ r : LegacyRow, legacyKeep r = true ↔
      (seasonDigits r.season ≠ "" ∧
        digitsToNat (seasonDigits r.season) ≤ 13 ∧
        truthy r.qual = true ∧ stripChars (r.qual.getD "") ≠ "")) ∧
    (∀ r : LegacyRow, seasonDigits r.season = "" → legacyKeep r = false) := by
  refine ⟨by decide, by decide, by decide, by decide, ?_, ?_, ?_⟩
  · intro rows r
    rw [fetch_legacy_quals, List.mem_filter]
  · intro r
    rw [legacyKeep]
    simp [Bool.and_eq_true, truthy, and_assoc]
  · intro r h
    rw [legacyKeep, h]
    simp

/-- Witness for C6: a no-digit season row is dropped, a Season 13 row
with a non-empty value is kept. -/
theorem fetch_legacy_quals_spec_witness :
    legacyKeep ⟨"a@x.com", "Season ?", "1", some "ok"⟩ = false ∧
    legacyKeep ⟨"a@x.com", "Season 13", "1", some "Q0"⟩ = true ∧
    (⟨"a@x.com", "Season 13", "1", some "Q0"⟩ : LegacyRow) ∈
      fetch_legacy_quals [⟨"a@x.com", "Season 13", "1", some "Q0"⟩] := by
  refine ⟨?_, ?_, ?_⟩
  · exact fetch_legacy_quals_spec.2.2.2.2.2.2
      ⟨"a@x.com", "Season ?", "1", some "ok"⟩ (by decide)
  · exact (fetch_legacy_quals_spec.2.2.2.2.2.1
      ⟨"a@x.com", "Season 13", "1", some "Q0"⟩).mpr (by decide)
  · exact (fetch_legacy_quals_spec.2.2.2.2.1
      [⟨"a@x.com", "Season 13", "1", some "Q0"⟩]
      ⟨"a@x.com", "Season 13", "1", some "Q0"⟩).mpr
      ⟨List.mem_singleton.mpr rfl, by decide⟩

/-! ### Building the upsert records (main of migrate-qual-scores.py)

Both loops of step 5 share one shape: look up the email of the row in the
runner map; a falsy runner_id (absent, or empty string) adds the email to
the unmapped set, otherwise the normalized record is appended. -/

structure CoachRow where
  email_id : String
  season : String
  meso : String
  meso_qual_score : Option String
deriving DecidableEq

structure QualVals where
  qual_score : Option String
  source_table : String
deriving DecidableEq

abbrev QualKey := String × String × String

abbrev QualRecord := Record QualKey QualVals Unit

def coachToRecord (rid : String) (r : CoachRow) : QualRecord :=
  ⟨(rid, r.season, r.meso), ⟨r.meso_qual_score, "rhwb_coach_input"⟩, ()⟩

def legacyToRecord (rid : String) (r : LegacyRow) : QualRecord :=
  ⟨(rid, r.season, r.meso), ⟨r.qual, "rhwb_meso_scores"⟩, ()⟩

def mapRowsStep {ρ : Type} (m : String → Option String) (email : ρ → String)
    (toRec : String → ρ → QualRecord)
    (acc : List QualRecord × Finset String) (row : ρ) :
    List QualRecord × Finset String :=
  match m (email row) with
  | some rid =>
      if rid = "" then (acc.1, insert (email row) acc.2)
      else (acc.1 ++ [toRec rid row], acc.2)
  | none => (acc.1, insert (email row) acc.2)

def mapRows {ρ : Type} (m : String → Option String) (email : ρ → String)
    (toRec : String → ρ → QualRecord)
    (acc : List QualRecord × Finset String) (rows : List ρ) :
    List QualRecord × Finset String :=
  rows.foldl (mapRowsStep m email toRec) acc

def build_qual_records (m : String → Option String)
    (coach : List CoachRow) (legacy : List LegacyRow) :
    List QualRecord × Finset String :=
  mapRows m LegacyRow.email_id legacyToRecord
    (mapRows m CoachRow.email_id coachToRecord ([], ∅) coach) legacy

/-- The record a row contributes, when its email maps to a truthy
runner_id. -/
def rowRec {ρ : Type} (m : String → Option String) (email : ρ → String)
    (toRec : String → ρ → QualRecord) (row : ρ) : Option QualRecord :=
  match m (email row) with
  | some rid => if rid = "" then none else some (toRec rid row)
  | none => none

/-- The email a row reports as unmapped, when its email has no truthy
runner_id. -/
def rowUnmapped {ρ : Type} (m : String → Option String) (email : ρ → String)
    (row : ρ) : Option String :=
  match m (email row) with
  | some rid => if rid = "" then some (email row) else none
  | none => some (email row)

theorem mapRows_spec {ρ : Type} (m : String → Option String)
    (email : ρ → String) (toRec : String → ρ → QualRecord) :
    ∀ (rows : List ρ) (acc : List QualRecord × Finset String),
      mapRows m email toRec acc rows =
        (acc.1 ++ rows.filterMap (rowRec m email toRec),
         acc.2 ∪ (rows.filterMap (rowUnmapped m email)).toFinset) := by
  intro rows
  induction rows with
  | nil =>
    intro acc
    simp [mapRows]
  | cons row rest ih =>
    intro acc
    rw [mapRows, List.foldl_cons]
    rw [show List.foldl (mapRowsStep m email toRec)
      (mapRowsStep m email toRec acc row) rest =
      mapRows m email toRec (mapRowsStep m email toRec acc row) rest from rfl]
    rw [ih (mapRowsStep m email toRec acc row)]
    cases hm : m (email row) with
    | none =>
      have hstep : mapRowsStep m email toRec acc row =
          (acc.1, insert (email row) acc.2) := by
        rw [mapRowsStep, hm]
      rw [hstep,
        List.filterMap_cons_none (by rw [rowRec, hm]),
        List.filterMap_cons_some
          (show rowUnmapped m email row = some (email row) from
            by rw [rowUnmapped, hm]),
        List.toFinset_cons]
      refine Prod.ext rfl ?_
      simp only
      rw [Finset.insert_union, Finset.union_insert]
    | some rid =>
      by_cases hempty : rid = ""
      · subst hempty
        have hstep : mapRowsStep m email toRec acc row =
            (acc.1, insert (email row) acc.2) := by
          simp [mapRowsStep, hm]
        rw [hstep,
          List.filterMap_cons_none (by simp [rowRec, hm]),
          List.filterMap_cons_some
            (show rowUnmapped m email row = some (email row) from
              by simp [rowUnmapped, hm]),
          List.toFinset_cons]
        refine Prod.ext rfl ?_
        simp only
        rw [Finset.insert_union, Finset.union_insert]
      · have hstep : mapRowsStep m email toRec acc row =
            (acc.1 ++ [toRec rid row], acc.2) := by
          simp [mapRowsStep, hm, hempty]
        rw [hstep,
          List.filterMap_cons_some
            (show rowRec m email toRec row = some (toRec rid row) from
              by simp [rowRec, hm, hempty]),
          List.filterMap_cons_none (by simp [rowUnmapped, hm, hempty])]
        refine Prod.ext ?_ rfl
        simp only
        rw [List.append_assoc]
        rfl

/-- C10: the prepared record list is the coach-input contributions, in
fetch order, followed by the legacy contributions, in fetch order; coach
records carry the rhwb_coach_input provenance tag and legacy records the
rhwb_meso_scores tag, so for a key contributed by both sources the legacy
record comes later in the upsert sequence. -/
theorem qual_records_order (m : String → Option String)
    (coach : List CoachRow) (legacy : List LegacyRow) :
    (build_qual_records m coach legacy).1 =
      coach.filterMap (rowRec m CoachRow.email_id coachToRecord) ++
        legacy.filterMap (rowRec m LegacyRow.email_id legacyToRecord) ∧
    (∀ rec ∈ coach.filterMap (rowRec m CoachRow.email_id coachToRecord),
      rec.vals.source_table = "rhwb_coach_input") ∧
    (∀ rec ∈ legacy.filterMap (rowRec m LegacyRow.email_id legacyToRecord),
      rec.vals.source_table = "rhwb_meso_scores") := by
  refine ⟨?_, ?_, ?_⟩
  · rw [build_qual_records, mapRows_spec, mapRows_spec]
    simp
  · intro rec hrec
    rcases List.mem_filterMap.mp hrec with ⟨row, _, hrow⟩
    rw [rowRec] at hrow
    cases hm : m (CoachRow.email_id row) with
    | none => rw [hm] at hrow; simp at hrow
    | some rid =>
      rw [hm] at hrow
      by_cases hempty : rid = ""
      · simp [hempty] at hrow
      · simp [hempty] at hrow
        rw [← hrow]
        rfl
  · intro rec hrec
    rcases List.mem_filterMap.mp hrec with ⟨row, _, hrow⟩
    rw [rowRec] at hrow
    cases hm : m (LegacyRow.email_id row) with
    | none => rw [hm] at hrow; simp at hrow
    | some rid =>
      rw [hm] at hrow
      by_cases hempty : rid = ""
      · simp [hempty] at hrow
      · simp [hempty] at hrow
        rw [← hrow]
        rfl

/-- Witness for C10 at a one-row-per-source run. -/
theorem qual_records_order_witness :
    (build_qual_records (fun e => if e = "a@x.com" then some "R1" else none)
      [⟨"a@x.com", "14", "1", some "Q1"⟩]
      [⟨"a@x.com", "Season 13", "1", some "Q0"⟩]).1 =
      [coachToRecord "R1" ⟨"a@x.com", "14", "1", some "Q1"⟩,
       legacyToRecord "R1" ⟨"a@x.com", "Season 13", "1", some "Q0"⟩] ∧
    (coachToRecord "R1"
      ⟨"a@x.com", "14", "1", some "Q1"⟩).vals.source_table =
      "rhwb_coach_input" ∧
    (legacyToRecord "R1"
      ⟨"a@x.com", "Season 13", "1", some "Q0"⟩).vals.source_table =
      "rhwb_meso_scores" := by
  have h := qual_records_order
    (fun e => if e = "a@x.com" then some "R1" else none)
    [⟨"a@x.com", "14", "1", some "Q1"⟩]
    [⟨"a@x.com", "Season 13", "1", some "Q0"⟩]
  refine ⟨?_, ?_, ?_⟩
  · rw [h.1]
    decide
  · exact h.2.1 (coachToRecord "R1" ⟨"a@x.com", "14", "1", some "Q1"⟩)
      (by decide)
  · exact h.2.2 (legacyToRecord "R1" ⟨"a@x.com", "Season 13", "1", some "Q0"⟩)
      (by decide)

theorem filterMap_filter_of_none {ρ σ : Type} (f : ρ → Option σ)
    (p : ρ → Bool) (h : ∀ row, p row = false → f row = none) :
    ∀ rows : List ρ, (rows.filter p).filterMap f = rows.filterMap f := by
  intro rows
  induction rows with
  | nil => rfl
  | cons row rest ih =>
    rw [List.filter_cons]
    cases hp : p row with
    | true => simp [List.filterMap_cons, ih]
    | false =>
      simp only [Bool.false_eq_true, if_false]
      rw [ih, List.filterMap_cons_none (h row hp)]

theorem mem_unmapped_iff {ρ : Type} (m : String → Option String)
    (email : ρ → String) (rows : List ρ) (e : String) (h : m e = none) :
    e ∈ (rows.filterMap (rowUnmapped m email)).toFinset ↔
      e ∈ rows.map email := by
  rw [List.mem_toFinset, List.mem_filterMap, List.mem_map]
  constructor
  · rintro ⟨row, hmem, hrow⟩
    refine ⟨row, hmem, ?_⟩
    rw [rowUnmapped] at hrow
    cases hm : m (email row) with
    | none =>
      rw [hm] at hrow
      exact Option.some.inj hrow
    | some rid =>
      rw [hm] at hrow
      by_cases hempty : rid = ""
      · simp only [hempty, if_pos rfl] at hrow
        exact Option.some.inj hrow
      · simp [hempty] at hrow
  · rintro ⟨row, hmem, hrow⟩
    refine ⟨row, hmem, ?_⟩
    rw [rowUnmapped, hrow, h]

/-- C7: if an email is absent from the identifier map, deleting all source
rows bearing it (from either branch) leaves the prepared record list
unchanged — those rows never contribute a record — and the email is
counted exactly once in the unmapped set when at least one row bears it,
no matter how many rows do. -/
theorem unmapped_email_spec (m : String → Option String)
    (coach : List CoachRow) (legacy : List LegacyRow) (e : String)
    (h : m e = none) :
    (build_qual_records m coach legacy).1 =
      (build_qual_records m (coach.filter (fun r => !(r.email_id == e)))
        (legacy.filter (fun r => !(r.email_id == e)))).1 ∧
    (build_qual_records m coach legacy).2.val.count e =
      (if e ∈ coach.map CoachRow.email_id ∨ e ∈ legacy.map LegacyRow.email_id
       then 1 else 0) := by
  have hcoach : ∀ row : CoachRow, (!(row.email_id == e)) = false →
      rowRec m CoachRow.email_id coachToRecord row = none := by
    intro row hrow
    have he : row.email_id = e := by simpa using hrow
    rw [rowRec]
    simp only [he, h]
  have hlegacy : ∀ row : LegacyRow, (!(row.email_id == e)) = false →
      rowRec m LegacyRow.email_id legacyToRecord row = none := by
    intro row hrow
    have he : row.email_id = e := by simpa using hrow
    rw [rowRec]
    simp only [he, h]
  constructor
  · rw [build_qual_records, mapRows_spec, mapRows_spec,
      build_qual_records, mapRows_spec, mapRows_spec]
    simp only [List.nil_append]
    rw [filterMap_filter_of_none _ _ hcoach coach,
      filterMap_filter_of_none _ _ hlegacy legacy]
  · rw [build_qual_records, mapRows_spec, mapRows_spec]
    simp only
    have hiff : e ∈ ((∅ ∪
        (coach.filterMap (rowUnmapped m CoachRow.email_id)).toFinset) ∪
        (legacy.filterMap (rowUnmapped m LegacyRow.email_id)).toFinset) ↔
        (e ∈ coach.map CoachRow.email_id ∨
          e ∈ legacy.map LegacyRow.email_id) := by
      rw [Finset.mem_union, Finset.mem_union]
      rw [mem_unmapped_iff m CoachRow.email_id coach e h,
        mem_unmapped_iff m LegacyRow.email_id legacy e h]
      simp
    by_cases hin : e ∈ coach.map CoachRow.email_id ∨
        e ∈ legacy.map LegacyRow.email_id
    · rw [if_pos hin]
      exact Multiset.count_eq_one_of_mem (Finset.nodup _) (hiff.mpr hin)
    · rw [if_neg hin]
      exact Multiset.count_eq_zero_of_not_mem
        (fun hm2 => hin (hiff.mp hm2))

/-- Witness for C7: an unmapped email referenced by three rows is counted
once and contributes no record. -/
theorem unmapped_email_spec_witness :
    (build_qual_records (fun _ => none)
      [⟨"x@y", "14", "1", some "Q1"⟩, ⟨"x@y", "15", "2", some "Q2"⟩]
      [⟨"x@y", "Season 13", "1", some "Q0"⟩]).1 =
      (build_qual_records (fun _ => none)
        ([⟨"x@y", "14", "1", some "Q1"⟩,
          ⟨"x@y", "15", "2", some "Q2"⟩].filter
            (fun r => !(r.email_id == "x@y")))
        ([⟨"x@y", "Season 13", "1", some "Q0"⟩].filter
            (fun r => !(r.email_id == "x@y")))).1 ∧
    (build_qual_records (fun _ => none)
      [⟨"x@y", "14", "1", some "Q1"⟩, ⟨"x@y", "15", "2", some "Q2"⟩]
      [⟨"x@y", "Season 13", "1", some "Q0"⟩]).2.val.count "x@y" = 1 := by
  have h := unmapped_email_spec (fun _ => none)
    [⟨"x@y", "14", "1", some "Q1"⟩, ⟨"x@y", "15", "2", some "Q2"⟩]
    [⟨"x@y", "Season 13", "1", some "Q0"⟩] "x@y" rfl
  refine ⟨h.1, ?_⟩
  rw [h.2, if_pos (Or.inl (by decide))]

/-! ### The veer_feedback pipeline and the final verification

main of migrate-veer-feedback.py: fetch, return early when nothing was
fetched, drop rows with a falsy runner_id, upsert, and exit 1 when the
returned total differs from the number of prepared records (falling off
the end, exit 0, otherwise). -/

structure VeerRow where
  message_id : String
  runner_id : Option String
  feedback : Option String
  user_question : Option String
  assistant_response : Option String
  comment : Option String
  created_at : Option String
deriving DecidableEq

def veer_records (rows : List VeerRow) : List VeerRow :=
  rows.filter (fun r => truthy r.runner_id)

def veer_main_exit (rows : List VeerRow) : Nat :=
  if rows.isEmpty then 0
  else verify_exit (veer_records rows).length
    (upsert_to_cloud_sql_total (veer_records rows))

/-- C4: the final verification exits 0 exactly when the upserted total
equals the prepared count and exits 1 exactly when they diverge; in
particular a run whose only fetched feedback row has a null runner_id
prepares zero records, upserts zero and exits 0. -/
theorem verify_exit_spec :
    (∀ prepared total : Nat,
      (verify_exit prepared total = 0 ↔ total = prepared) ∧
      (verify_exit prepared total = 1 ↔ total ≠ prepared)) ∧
    (∀ r : VeerRow, truthy r.runner_id = false →
      veer_records [r] = [] ∧ veer_main_exit [r] = 0) := by
  refine ⟨?_, ?_⟩
  · intro p t
    by_cases h : t = p <;> simp [verify_exit, h]
  · intro r hr
    have hrec : veer_records [r] = [] := by
      simp [veer_records, hr]
    refine ⟨hrec, ?_⟩
    rw [veer_main_exit, if_neg (by simp), hrec]
    rfl

/-- Witness for C4: matching and diverging counts, and a single
null-runner feedback row. -/
theorem verify_exit_spec_witness :
    verify_exit 3 3 = 0 ∧ verify_exit 3 5 = 1 ∧
    veer_records [⟨"m1", none, some "up", none, none, none, some "t"⟩] =
      [] ∧
    veer_main_exit [⟨"m1", none, some "up", none, none, none, some "t"⟩] =
      0 := by
  have h2 := verify_exit_spec.2
    ⟨"m1", none, some "up", none, none, none, some "t"⟩ rfl
  exact ⟨(verify_exit_spec.1 3 3).1.mpr rfl,
    (verify_exit_spec.1 3 5).2.mpr (by decide), h2.1, h2.2⟩

end RhwbPulse
